import Mathlib

/-!
Shallow embedding of `zvsh.py` (zerovm-cli): the session builder (`ZvShell`)
and the process supervisor (`ZvRunner`).  Strings are modelled as `List Char`,
byte strings as `List Nat`.  Filesystem facts that the code queries
(`os.access`, `os.path.abspath`, tar member tables) are oracle parameters.
-/

namespace Zvsh

abbrev Str := List Char

/-- `os.path.basename`: the part of the path after the last slash. -/
def basename (s : Str) : Str :=
  (s.reverse.takeWhile (fun c => c ≠ '/')).reverse

/-- Decimal digit character. -/
def digitChar (d : Nat) : Char := Char.ofNat (48 + d)

def natCharsAux : Nat → Nat → List Char
  | 0, n => [digitChar n]
  | fuel + 1, n =>
    if n < 10 then [digitChar n]
    else natCharsAux fuel (n / 10) ++ [digitChar (n % 10)]

/-- Decimal rendering of a natural number, as produced by Python `'%s' % n`. -/
def natChars (n : Nat) : List Char := natCharsAux n n

/-- Left fold decoding a digit string back to the number. -/
def decodeDigits (s : List Char) : Nat :=
  s.foldl (fun a c => 10 * a + (c.toNat - 48)) 0

/-- Device-name rendering: `'/dev/%s.%s' % (ordinal, name)`. -/
def devName (ordinal : Nat) (name : Str) : Str :=
  "/dev/".data ++ natChars ordinal ++ '.' :: name

/-- The channel templates of `zvsh.py` rendered to strings. -/
def CHANNEL_SEQ_READ_TEMPLATE (uri dev reads rbytes : Str) : Str :=
  "Channel = ".data ++ uri ++ ",".data ++ dev ++ ",0,0,".data ++
    reads ++ ",".data ++ rbytes ++ ",0,0".data

def CHANNEL_SEQ_WRITE_TEMPLATE (uri dev writes wbytes : Str) : Str :=
  "Channel = ".data ++ uri ++ ",".data ++ dev ++ ",0,0,0,0,".data ++
    writes ++ ",".data ++ wbytes

def CHANNEL_RANDOM_RW_TEMPLATE (uri dev reads rbytes writes wbytes : Str) : Str :=
  "Channel = ".data ++ uri ++ ",".data ++ dev ++ ",3,0,".data ++
    reads ++ ",".data ++ rbytes ++ ",".data ++ writes ++ ",".data ++ wbytes

def CHANNEL_RANDOM_RO_TEMPLATE (uri dev reads rbytes : Str) : Str :=
  "Channel = ".data ++ uri ++ ",".data ++ dev ++ ",3,0,".data ++
    reads ++ ",".data ++ rbytes ++ ",0,0".data

/-- Channel quota settings (`self.channel_conf`). -/
structure Limits where
  reads : Str
  rbytes : Str
  writes : Str
  wbytes : Str
deriving DecidableEq

/-- Oracle for the filesystem facts the builder queries. `tar p` is the
member table (name, content) of the archive at path `p`. -/
structure Fs where
  writable : Str → Bool
  abspath : Str → Str
  tar : Str → List (Str × Str)

/-- Session state of `ZvShell` (the fields the verified operations touch).
`scratch` records files written into the scratch directory. -/
structure ZvShell where
  temp_files : List Str
  manifest_channels : List Str
  nvram_env : List (Str × Str)
  nvram_fstab : List (Str × Str)
  nvram_args : List Str
  program : Str
  tmpdir : Str
  node_id : Nat
  channel_conf : Limits
  scratch : List (Str × Str)
deriving DecidableEq

/-- Python dict assignment `d[k] = v`: overwrite in place if present, else append. -/
def dictInsert (d : List (Str × Str)) (k v : Str) : List (Str × Str) :=
  if d.any (fun p => decide (p.1 = k)) then
    d.map (fun p => if p.1 = k then (k, v) else p)
  else d ++ [(k, v)]

/-- Python dict lookup `d.get(k)`. -/
def dictLookup (d : List (Str × Str)) (k : Str) : Option Str :=
  (d.find? (fun p => decide (p.1 = k))).map (fun p => p.2)

/-- `ZvShell.create_manifest_channel`: appends the path to `temp_files`,
derives the device name `/dev/<len(temp_files)>.<basename>`, appends a
random-access channel line (read-write when the absolute path is writable),
and returns the device name. -/
def create_manifest_channel (fs : Fs) (sh : ZvShell) (file_name : Str) :
    ZvShell × Str :=
  let name := basename file_name
  let tfs := sh.temp_files ++ [file_name]
  let dev := devName tfs.length name
  let line :=
    if fs.writable (fs.abspath file_name) then
      CHANNEL_RANDOM_RW_TEMPLATE (fs.abspath file_name) dev
        sh.channel_conf.reads sh.channel_conf.rbytes
        sh.channel_conf.writes sh.channel_conf.wbytes
    else
      CHANNEL_RANDOM_RO_TEMPLATE (fs.abspath file_name) dev
        sh.channel_conf.reads sh.channel_conf.rbytes
  ({ sh with temp_files := tfs,
             manifest_channels := sh.manifest_channels ++ [line] }, dev)

/-- A sequence of `create_manifest_channel` calls, collecting the returned
device names in order. -/
def registerList (fs : Fs) (sh : ZvShell) : List Str → ZvShell × List Str
  | [] => (sh, [])
  | p :: ps =>
    let r1 := create_manifest_channel fs sh p
    let r2 := registerList fs r1.1 ps
    (r2.1, r1.2 :: r2.2)

/-- Python 2 `ENV_MATCH.match(s)` for pattern `([_A-Z0-9]+)=(.*)`:
the longest leading run of `[_A-Z0-9]` must be nonempty and followed by
`'='`; group 2 is the rest of the string up to the first newline
(a regex `.` does not match a newline). -/
def isNameChar (c : Char) : Bool :=
  (('A' ≤ c && c ≤ 'Z') || ('0' ≤ c && c ≤ '9') || c = '_')

def envMatch (s : Str) : Option (Str × Str) :=
  match s.takeWhile isNameChar, s.drop (s.takeWhile isNameChar).length with
  | [], _ => none
  | _ :: _, '=' :: tail =>
    some (s.takeWhile isNameChar, tail.takeWhile (fun c => c ≠ '\n'))
  | _, _ => none

/-- One iteration of the loop in `ZvShell.add_untrusted_args` over a token:
`@NAME=VALUE` becomes an environment entry, any other `@path` is registered
as a channel and its device name takes the token's place, a plain token
passes through. -/
def processArg (fs : Fs) (st : ZvShell × List Str) (arg : Str) :
    ZvShell × List Str :=
  match arg with
  | '@' :: rest =>
    match envMatch rest with
    | some (k, v) =>
      ({ st.1 with nvram_env := dictInsert st.1.nvram_env k v }, st.2)
    | none =>
      let r := create_manifest_channel fs st.1 rest
      (r.1, st.2 ++ [r.2])
  | _ => (st.1, st.2 ++ [arg])

/-- `ZvShell.add_untrusted_args`: sets the program, seeds the guest argv
with the program's basename, folds the tokens, and stores the result. -/
def add_untrusted_args (fs : Fs) (sh : ZvShell) (program : Str)
    (cmdline : List Str) : ZvShell :=
  let sh1 := { sh with program := program }
  let st := cmdline.foldl (processArg fs) (sh1, [basename program])
  { st.1 with nvram_args := st.2 }

/-- Python `str.split(',')`. -/
def splitComma : Str → List Str
  | [] => [[]]
  | c :: cs =>
    if c = ',' then [] :: splitComma cs
    else
      match splitComma cs with
      | h :: t => (c :: h) :: t
      | [] => [[c]]

/-- `(img.split(',') + [None] * 3)[:3]`. -/
def parseImageSpec (img : Str) : Str × Option Str × Option Str :=
  let parts := splitComma img
  (parts.headD [], parts.get? 1, parts.get? 2)

/-- Python `x or default` over an optional string (`None` and `''` are falsy). -/
def pyOr (x : Option Str) (d : Str) : Str :=
  match x with
  | none => d
  | some s => if s = [] then d else s

/-- `tar.extractfile(name)`: content of the member named exactly `name`,
`KeyError` (here `none`) when absent. -/
def tarLookup (members : List (Str × Str)) (name : Str) : Option Str :=
  (members.find? (fun m => decide (m.1 = name))).map (fun m => m.2)

/-- One iteration of `ZvShell.add_image_args` over a single image spec:
parse `path[,mountpoint[,access]]`, register the image as a channel, record
the mount entry, then look the current program path up in the archive; on a
hit, write the content to `<tmpdir>/boot.<node_id>` and make that the
program, on a `KeyError` leave the program unchanged. -/
def addImageStep (fs : Fs) (sh : ZvShell) (img : Str) : ZvShell :=
  let p := parseImageSpec img
  let r := create_manifest_channel fs sh p.1
  let mount := pyOr p.2.1 "/".data ++ " ".data ++ pyOr p.2.2 "ro".data
  let sh1 := { r.1 with nvram_fstab := dictInsert r.1.nvram_fstab r.2 mount }
  match tarLookup (fs.tar p.1) sh1.program with
  | some content =>
    let tmpnexe_fn := sh1.tmpdir ++ "/boot.".data ++ natChars sh1.node_id
    { sh1 with program := tmpnexe_fn,
               scratch := sh1.scratch ++ [(tmpnexe_fn, content)] }
  | none => sh1

/-- `ZvShell.add_image_args` over the whole `--zvm-image` list. -/
def add_image_args (fs : Fs) (sh : ZvShell) (imgs : List Str) : ZvShell :=
  imgs.foldl (addImageStep fs) sh

/-- `v.replace(',', '\\x2c')`: each comma becomes the four characters
backslash, `x`, `2`, `c`. -/
def escapeComma : Str → Str
  | [] => []
  | c :: cs =>
    if c = ',' then '\\' :: 'x' :: '2' :: 'c' :: escapeComma cs
    else c :: escapeComma cs

/-- A compliant NVRAM reader's decoding: each occurrence of the reserved
sequence backslash-`x2c` maps back to a comma. -/
def unescapeComma : Str → Str
  | [] => []
  | [a] => [a]
  | [a, b] => [a, b]
  | [a, b, c] => [a, b, c]
  | a :: b :: c :: d :: rest =>
    if a = '\\' ∧ b = 'x' ∧ c = '2' ∧ d = 'c' then ',' :: unescapeComma rest
    else a :: unescapeComma (b :: c :: d :: rest)

/-- Whether the literal reserved sequence occurs in the string. -/
def hasEscSeq : Str → Bool
  | [] => false
  | c :: cs => (c = '\\' && cs.take 3 == ['x', '2', 'c']) || hasEscSeq cs

/-- The `[args]` payload of `create_nvram`:
`' '.join([a.replace(',', '\\x2c') for a in args])`. -/
def joinSpace : List Str → Str
  | [] => []
  | [a] => a
  | a :: b :: t => a ++ ' ' :: joinSpace (b :: t)

def nvramArgsLine (args : List Str) : Str :=
  "args = ".data ++ joinSpace (args.map escapeComma) ++ "\n".data

/-- One `[env]` line of `create_nvram`:
`'name=%s,value=%s\n' % (k, v.replace(',', '\\x2c'))`. -/
def nvramEnvLine (k v : Str) : Str :=
  "name=".data ++ k ++ ",value=".data ++ escapeComma v ++ "\n".data

/-- Python `str.split(' ')` segments. -/
def splitSpace : Str → List Str
  | [] => [[]]
  | c :: cs =>
    if c = ' ' then [] :: splitSpace cs
    else
      match splitSpace cs with
      | h :: t => (c :: h) :: t
      | [] => [[c]]

/-- Python `str.split()` (restricted to the space character, the only
whitespace these mount strings contain): split and drop empty fields. -/
def splitWS (s : Str) : List Str :=
  (splitSpace s).filter (fun w => decide (w ≠ []))

/-- One `[fstab]` line of `create_nvram`:
`(mp, access) = mount.split()` then
`'channel=%s,mountpoint=%s,access=%s,removable=no\n' % (channel, mp, access)`.
`none` models the `ValueError` when the mount string does not have exactly
two fields. -/
def nvramFstabLine (channel mount : Str) : Option Str :=
  match splitWS mount with
  | [mp, access] =>
    some ("channel=".data ++ channel ++ ",mountpoint=".data ++ mp ++
      ",access=".data ++ access ++ ",removable=no\n".data)
  | _ => none

/-- Module-level `DEFAULT_MANIFEST` of `zvsh.py` (values as the strings
Python renders). -/
def DEFAULT_MANIFEST : List (Str × Str) :=
  [("Version".data, "20130611".data),
   ("Memory".data, "4294967296, 0".data),
   ("Node".data, "1".data),
   ("Timeout".data, "50".data)]

/-- Module-level `DEFAULT_LIMITS` of `zvsh.py`. -/
def DEFAULT_LIMITS : List (Str × Str) :=
  [("reads".data, "4294967296".data),
   ("rbytes".data, "4294967296".data),
   ("writes".data, "4294967296".data),
   ("wbytes".data, "4294967296".data)]

/-- The module-level mutable dictionaries, threaded explicitly. -/
structure Globals where
  default_manifest : List (Str × Str)
  default_limits : List (Str × Str)
deriving DecidableEq

def initGlobals : Globals := ⟨DEFAULT_MANIFEST, DEFAULT_LIMITS⟩

/-- Python `d.update(ov)`. -/
def dictUpdateAll (d ov : List (Str × Str)) : List (Str × Str) :=
  ov.foldl (fun acc kv => dictInsert acc kv.1 kv.2) d

/-- The configuration merge in `ZvShell.__init__`:
`self.manifest_conf = DEFAULT_MANIFEST` then
`self.manifest_conf.update(overrides)` (and likewise for the limits).
The assignment aliases the module-level dictionary, so `update` mutates it
in place; the returned `Globals` is the post-construction module state and
the pair is the session's `(manifest_conf, channel_conf)`. -/
def zvShellInitConf (g : Globals) (manifestOv limitsOv : List (Str × Str)) :
    Globals × (List (Str × Str) × List (Str × Str)) :=
  let m := dictUpdateAll g.default_manifest manifestOv
  let l := dictUpdateAll g.default_limits limitsOv
  (⟨m, l⟩, (m, l))

/-- Events of `ZvRunner.run`, in program order. -/
inductive REvent where
  | spawnStdin
  | spawnErr
  | spawnRep
  | spawnWriter
  | waitChild
  | joinRep
  | decideExit
  | joinWriter
  | joinErr
  | waitFinal
  | printErrorEv
  | ret
deriving DecidableEq

/-- The event trace of `ZvRunner.run` on the non-exceptional path, as a
function of the child's exit code: wait for the child, join the report
reader, then join the stdout writer and stderr reader only when the exit
code is zero; in the `finally` block wait again and dump diagnostics only
when the exit code is positive. -/
def runTrace (rc : Int) : List REvent :=
  [REvent.spawnStdin, REvent.spawnErr, REvent.spawnRep, REvent.spawnWriter,
   REvent.waitChild, REvent.joinRep, REvent.decideExit] ++
  (if rc = 0 then [REvent.joinWriter, REvent.joinErr] else []) ++
  [REvent.waitFinal] ++
  (if rc > 0 then [REvent.printErrorEv] else []) ++
  [REvent.ret]

def idxOf (t : List REvent) (e : REvent) : Nat :=
  t.findIdx (fun x => decide (x = e))

/-- Byte values Python `is_binary_string` treats as text:
`[7, 8, 9, 10, 12, 13, 27] + range(0x20, 0x100)`. -/
def textchars : List Nat :=
  [7, 8, 9, 10, 12, 13, 27] ++ (List.range 224).map (fun i => 32 + i)

/-- `is_binary_string`: delete every allow-listed byte
(`translate(None, textchars)`) and test whether anything remains. -/
def is_binary_string (byte_string : List Nat) : Bool :=
  !((byte_string.filter (fun b => !(textchars.contains b))).isEmpty)

/-- A directory entry seen by `ZvRunner.print_error`. -/
structure DumpFile where
  name : Str
  isReg : Bool
  content : List Nat
deriving DecidableEq

def bytesToChars (bs : List Nat) : Str := bs.map Char.ofNat

/-- `'%d' % rc` for a (possibly negative) exit code. -/
def intChars (i : Int) : Str :=
  if i < 0 then '-' :: natChars i.natAbs else natChars i.toNat

/-- The per-file part of `ZvRunner.print_error`: non-regular entries are
skipped; a regular file whose first 1024 bytes look binary is reported by
path only; otherwise
`'\n'.join(['-' * 10 + f + '-' * 10, contents, '-' * 25, ''])`. -/
def dumpOne (tmpdir : Str) (f : DumpFile) : Str :=
  if f.isReg then
    if is_binary_string (f.content.take 1024) then
      (tmpdir ++ "/".data ++ f.name) ++ " is a binary file\n".data
    else
      "----------".data ++ f.name ++ "----------".data ++ "\n".data ++
        bytesToChars f.content ++ "\n".data ++
        "-------------------------".data ++ "\n".data
  else []

/-- `ZvRunner.print_error(rc)`: dump each directory entry, then the
accumulated report, then the final exit-code line. -/
def print_error (tmpdir : Str) (files : List DumpFile) (report : Str)
    (rc : Int) : Str :=
  (files.foldl (fun acc f => acc ++ dumpOne tmpdir f) []) ++ report ++
    "ERROR: ZeroVM return code is ".data ++ intChars rc ++ "\n".data

/-- The `finally` clause of `ZvRunner.run`: diagnostics are produced iff
the exit code is strictly positive. -/
def terminalOutput (tmpdir : Str) (files : List DumpFile) (report : Str)
    (rc : Int) : Str :=
  if rc > 0 then print_error tmpdir files report rc else []

/-- Fixture: a filesystem where nothing is writable, `abspath` is the
identity and all archives are empty. -/
def fsRO : Fs :=
  { writable := fun _ => false, abspath := fun s => s, tar := fun _ => [] }

/-- Fixture: an archive `img.tar` holding a single member `b`. -/
def fsTarB : Fs :=
  { fsRO with
    tar := fun p => if p = "img.tar".data then [("b".data, "X".data)] else [] }

/-- Fixture: an archive `img.tar` holding a single member `myprog`. -/
def fsTarProg : Fs :=
  { fsRO with
    tar := fun p =>
      if p = "img.tar".data then [("myprog".data, "X".data)] else [] }

/-- Fixture quotas. -/
def limits0 : Limits := ⟨"4".data, "4".data, "4".data, "4".data⟩

/-- Fixture: a freshly constructed session. -/
def sh0 : ZvShell :=
  { temp_files := [], manifest_channels := [], nvram_env := [],
    nvram_fstab := [], nvram_args := [], program := [],
    tmpdir := "/tmp/zv".data, node_id := 1, channel_conf := limits0,
    scratch := [] }

theorem natCharsAux_small (f n : Nat) (h : n < 10) : natCharsAux f n = [digitChar n] := by
  cases f with
  | zero => rfl
  | succ g => rw [natCharsAux, if_pos h]

theorem natCharsAux_congr :
    ∀ f1 f2 n : Nat, n ≤ f1 → n ≤ f2 → natCharsAux f1 n = natCharsAux f2 n := by
  intro f1
  induction f1 with
  | zero =>
    intro f2 n h1 h2
    have hn : n = 0 := by omega
    subst hn
    rw [natCharsAux_small 0 0 (by omega), natCharsAux_small f2 0 (by omega)]
  | succ g1 ih =>
    intro f2 n h1 h2
    by_cases hs : n < 10
    · rw [natCharsAux_small _ _ hs, natCharsAux_small _ _ hs]
    · cases f2 with
      | zero => omega
      | succ g2 =>
        rw [natCharsAux, if_neg hs, natCharsAux, if_neg hs]
        have hd : n / 10 < n := Nat.div_lt_self (by omega) (by omega)
        rw [ih g2 (n / 10) (by omega) (by omega)]

/-- The natural unfolding equation of `natChars`. -/
theorem natChars_eq (n : Nat) :
    natChars n =
      if n < 10 then [digitChar n]
      else natChars (n / 10) ++ [digitChar (n % 10)] := by
  by_cases hs : n < 10
  · rw [if_pos hs]
    exact natCharsAux_small n n hs
  · rw [if_neg hs]
    cases n with
    | zero => omega
    | succ m =>
      show natCharsAux (m + 1) (m + 1) = _
      rw [natCharsAux, if_neg hs]
      have hd : (m + 1) / 10 < m + 1 := Nat.div_lt_self (by omega) (by omega)
      rw [natCharsAux_congr m ((m + 1) / 10) ((m + 1) / 10) (by omega) (by omega)]
      rfl

theorem digitChar_toNat {d : Nat} (h : d < 10) : (digitChar d).toNat = 48 + d := by
  have hv : (48 + d).isValidChar := Or.inl (by omega)
  rw [digitChar, Char.ofNat, dif_pos hv]
  rfl

theorem natChars_digits (n : Nat) :
    ∀ c ∈ natChars n, 48 ≤ c.toNat ∧ c.toNat ≤ 57 := by
  induction n using Nat.strong_induction_on with
  | _ n ih =>
    intro c hc
    rw [natChars_eq] at hc
    by_cases h : n < 10
    · rw [if_pos h] at hc
      simp at hc
      subst hc
      rw [digitChar_toNat h]
      omega
    · rw [if_neg h] at hc
      rcases List.mem_append.mp hc with h1 | h2
      · exact ih (n / 10) (Nat.div_lt_self (by omega) (by omega)) c h1
      · simp at h2
        subst h2
        rw [digitChar_toNat (Nat.mod_lt _ (by omega))]
        omega

theorem foldl_decode_append (xs : List Char) (c : Char) (a : Nat) :
    (xs ++ [c]).foldl (fun a c => 10 * a + (c.toNat - 48)) a =
      10 * (xs.foldl (fun a c => 10 * a + (c.toNat - 48)) a) + (c.toNat - 48) := by
  rw [List.foldl_append]
  rfl

theorem decodeDigits_natChars (n : Nat) : decodeDigits (natChars n) = n := by
  induction n using Nat.strong_induction_on with
  | _ n ih =>
    rw [natChars_eq]
    by_cases h : n < 10
    · rw [if_pos h]
      simp [decodeDigits, digitChar_toNat h]
    · rw [if_neg h]
      have ihd := ih (n / 10) (Nat.div_lt_self (by omega) (by omega))
      unfold decodeDigits at ihd ⊢
      rw [foldl_decode_append, ihd, digitChar_toNat (Nat.mod_lt _ (by omega))]
      omega

theorem natChars_inj {m n : Nat} (h : natChars m = natChars n) : m = n := by
  have := decodeDigits_natChars m
  rw [h, decodeDigits_natChars] at this
  omega

theorem takeWhile_append_all {p : Char → Bool} {xs : List Char} (l : List Char)
    (h : ∀ c ∈ xs, p c = true) :
    (xs ++ l).takeWhile p = xs ++ l.takeWhile p := by
  induction xs with
  | nil => simp
  | cons c cs ih =>
    have hc : p c = true := h c (List.mem_cons_self c cs)
    simp only [List.cons_append, List.takeWhile_cons, hc, if_true]
    rw [ih (fun x hx => h x (List.mem_cons_of_mem c hx))]

theorem natChars_no_dot (n : Nat) : ∀ c ∈ natChars n, c ≠ '.' := by
  intro c hc
  have hd := natChars_digits n c hc
  intro hdot
  subst hdot
  have h46 : ('.').toNat = 46 := rfl
  rw [h46] at hd
  omega

theorem devName_inj_ordinal {m n : Nat} {s t : Str}
    (h : devName m s = devName n t) : m = n := by
  unfold devName at h
  simp only [List.append_assoc] at h
  have h2 : natChars m ++ '.' :: s = natChars n ++ '.' :: t :=
    List.append_cancel_left h
  have hallm : ∀ c ∈ natChars m, (fun c => decide (c ≠ '.')) c = true := by
    intro c hc
    simpa using natChars_no_dot m c hc
  have halln : ∀ c ∈ natChars n, (fun c => decide (c ≠ '.')) c = true := by
    intro c hc
    simpa using natChars_no_dot n c hc
  have hm : (natChars m ++ '.' :: s).takeWhile (fun c => decide (c ≠ '.')) = natChars m := by
    rw [takeWhile_append_all _ hallm]
    simp [List.takeWhile_cons]
  have hn : (natChars n ++ '.' :: t).takeWhile (fun c => decide (c ≠ '.')) = natChars n := by
    rw [takeWhile_append_all _ halln]
    simp [List.takeWhile_cons]
  apply natChars_inj
  rw [← hm, ← hn, h2]

theorem cmc_temp_len (fs : Fs) (sh : ZvShell) (p : Str) :
    (create_manifest_channel fs sh p).1.temp_files.length =
      sh.temp_files.length + 1 := by
  simp [create_manifest_channel]

theorem cmc_dev (fs : Fs) (sh : ZvShell) (p : Str) :
    (create_manifest_channel fs sh p).2 =
      devName (sh.temp_files.length + 1) (basename p) := by
  simp [create_manifest_channel]

theorem cmc_channels_len (fs : Fs) (sh : ZvShell) (p : Str) :
    (create_manifest_channel fs sh p).1.manifest_channels.length =
      sh.manifest_channels.length + 1 := by
  simp [create_manifest_channel]

theorem reg_len (fs : Fs) (ps : List Str) :
    ∀ sh : ZvShell, (registerList fs sh ps).2.length = ps.length := by
  induction ps with
  | nil => intro sh; rfl
  | cons p ps ih =>
    intro sh
    simp only [registerList, List.length_cons]
    rw [ih]

theorem reg_temp_len (fs : Fs) (ps : List Str) :
    ∀ sh : ZvShell, (registerList fs sh ps).1.temp_files.length =
      sh.temp_files.length + ps.length := by
  induction ps with
  | nil => intro sh; rfl
  | cons p ps ih =>
    intro sh
    simp only [registerList, List.length_cons]
    rw [ih, cmc_temp_len]
    omega

theorem reg_channels_len (fs : Fs) (ps : List Str) :
    ∀ sh : ZvShell, (registerList fs sh ps).1.manifest_channels.length =
      sh.manifest_channels.length + ps.length := by
  induction ps with
  | nil => intro sh; rfl
  | cons p ps ih =>
    intro sh
    simp only [registerList, List.length_cons]
    rw [ih, cmc_channels_len]
    omega

theorem reg_get (fs : Fs) (ps : List Str) :
    ∀ (sh : ZvShell) (i : Nat),
      (registerList fs sh ps).2.get? i =
        (ps.get? i).map
          (fun p => devName (sh.temp_files.length + i + 1) (basename p)) := by
  induction ps with
  | nil => intro sh i; simp [registerList]
  | cons p ps ih =>
    intro sh i
    cases i with
    | zero =>
      simp only [registerList, List.get?_cons_zero, Option.map_some]
      rw [cmc_dev]
      simp
    | succ j =>
      simp only [registerList, List.get?_cons_succ]
      rw [ih, cmc_temp_len]
      have harith : sh.temp_files.length + 1 + j + 1 =
          sh.temp_files.length + (j + 1) + 1 := by omega
      rw [harith]

/-- C1: registering any sequence of files in a fresh session produces the
device name `/dev/<i+1>.<basename of the i-th path>` for the i-th call, so
ordinals are strictly increasing from 1 and device names never collide;
every call — even for a repeated path — appends exactly one new temp-file
entry and one new channel descriptor (registration is never idempotent). -/
theorem claim_C1 (fs : Fs) (sh : ZvShell) (hfresh : sh.temp_files = [])
    (ps : List Str) :
    (registerList fs sh ps).2.length = ps.length ∧
    (∀ i : Nat, (registerList fs sh ps).2.get? i =
      (ps.get? i).map (fun p => devName (i + 1) (basename p))) ∧
    (registerList fs sh ps).2.Pairwise (fun a b => a ≠ b) ∧
    (registerList fs sh ps).1.temp_files.length = ps.length ∧
    (registerList fs sh ps).1.manifest_channels.length =
      sh.manifest_channels.length + ps.length := by
  have hlen0 : sh.temp_files.length = 0 := by rw [hfresh]; rfl
  have hget : ∀ i : Nat, (registerList fs sh ps).2.get? i =
      (ps.get? i).map (fun p => devName (i + 1) (basename p)) := by
    intro i
    have h := reg_get fs ps sh i
    rw [hlen0] at h
    simpa using h
  refine ⟨reg_len fs ps sh, hget, ?_, ?_, reg_channels_len fs ps sh⟩
  · rw [List.pairwise_iff_getElem]
    intro i j hi hj hij
    have hips : i < ps.length := by rw [← reg_len fs ps sh]; exact hi
    have hjps : j < ps.length := by rw [← reg_len fs ps sh]; exact hj
    have h1 := hget i
    have h2 := hget j
    rw [List.get?_eq_get hi, List.get?_eq_get hips] at h1
    rw [List.get?_eq_get hj, List.get?_eq_get hjps] at h2
    simp only [Option.map_some', Option.some.injEq] at h1 h2
    intro heq
    rw [List.get_eq_getElem] at h1 h2
    rw [h1, h2] at heq
    have := devName_inj_ordinal heq
    omega
  · rw [reg_temp_len, hlen0]
    omega

/-- Closed witness for `claim_C1`. -/
theorem claim_C1_witness :
    sh0.temp_files = [] ∧
    ((registerList fsRO sh0 ["x".data, "x".data, "d/y".data]).2.length = 3 ∧
      (∀ i : Nat,
        (registerList fsRO sh0 ["x".data, "x".data, "d/y".data]).2.get? i =
          (["x".data, "x".data, "d/y".data].get? i).map
            (fun p => devName (i + 1) (basename p))) ∧
      (registerList fsRO sh0 ["x".data, "x".data, "d/y".data]).2.Pairwise
        (fun a b => a ≠ b) ∧
      (registerList fsRO sh0 ["x".data, "x".data, "d/y".data]).1.temp_files.length = 3 ∧
      (registerList fsRO sh0
          ["x".data, "x".data, "d/y".data]).1.manifest_channels.length =
        sh0.manifest_channels.length + 3) :=
  ⟨rfl, claim_C1 fsRO sh0 rfl ["x".data, "x".data, "d/y".data]⟩

theorem cmc_env (fs : Fs) (sh : ZvShell) (p : Str) :
    (create_manifest_channel fs sh p).1.nvram_env = sh.nvram_env := by
  simp [create_manifest_channel]

theorem envMatch_pos (name value : Str) (hne : name ≠ [])
    (hall : ∀ c ∈ name, isNameChar c = true) :
    envMatch (name ++ '=' :: value) =
      some (name, value.takeWhile (fun c => c ≠ '\n')) := by
  have htw : (name ++ '=' :: value).takeWhile isNameChar = name := by
    rw [takeWhile_append_all _ hall]
    simp [List.takeWhile_cons]
    decide
  obtain ⟨a, t, rfl⟩ := List.exists_cons_of_ne_nil hne
  unfold envMatch
  rw [htw, List.drop_left]
  rfl

/-- C2 as stated is false: in the token `@A=B\nC`, the value `B\nC` is
truncated by the regex at the newline, so the environment entry maps `A` to
`B`, not to the full value. -/
theorem claim_C2_counterexample :
    ¬ (dictLookup
        (add_untrusted_args fsRO sh0 "prog".data ["@A=B\nC".data]).nvram_env
        "A".data = some "B\nC".data) := by
  decide

/-- C2 amended: an `@NAME=VALUE` token (NAME a nonempty `[A-Z0-9_]` run)
becomes exactly one environment entry whose value is VALUE truncated at the
first newline (VALUE itself when it has no newline), registers no channel
and leaves the guest argument list unchanged; an `@path` token that does
not match the pattern registers exactly one channel and appends the
returned device name in the token's place; a token without `@` passes
through unchanged. -/
theorem claim_C2_amended (fs : Fs) (sh : ZvShell) (args : List Str)
    (arg name value rest : Str) :
    (arg = '@' :: (name ++ '=' :: value) → name ≠ [] →
      (∀ c ∈ name, isNameChar c = true) →
      processArg fs (sh, args) arg =
        ({ sh with nvram_env :=
            (dictInsert sh.nvram_env name
              (value.takeWhile (fun c => c ≠ '\n'))) }, args)) ∧
    (arg = '@' :: rest → envMatch rest = none →
      processArg fs (sh, args) arg =
        ((create_manifest_channel fs sh rest).1,
          args ++ [(create_manifest_channel fs sh rest).2]) ∧
      (create_manifest_channel fs sh rest).1.manifest_channels.length =
        sh.manifest_channels.length + 1 ∧
      (create_manifest_channel fs sh rest).1.nvram_env = sh.nvram_env ∧
      (create_manifest_channel fs sh rest).2 =
        devName (sh.temp_files.length + 1) (basename rest)) ∧
    ((∀ r : Str, arg ≠ '@' :: r) →
      processArg fs (sh, args) arg = (sh, args ++ [arg])) := by
  refine ⟨?_, ?_, ?_⟩
  · intro harg hne hall
    subst harg
    rw [processArg.eq_1]
    rw [envMatch_pos name value hne hall]
  · intro harg hnone
    subst harg
    constructor
    · rw [processArg.eq_1]
      rw [hnone]
    · exact ⟨cmc_channels_len fs sh rest, cmc_env fs sh rest,
        cmc_dev fs sh rest⟩
  · intro hno
    exact processArg.eq_2 fs (sh, args) arg
      (fun r hr => absurd hr (hno r))

/-- Closed witness for `claim_C2_amended`, exercising all three cases. -/
theorem claim_C2_amended_witness :
    ("@A=B,C".data = '@' :: ("A".data ++ '=' :: "B,C".data) ∧
      processArg fsRO (sh0, ["p".data]) "@A=B,C".data =
        ({ sh0 with nvram_env :=
            (dictInsert sh0.nvram_env "A".data
              ("B,C".data.takeWhile (fun c => c ≠ '\n'))) }, ["p".data])) ∧
    ("@/tmp/x".data = '@' :: "/tmp/x".data ∧
      processArg fsRO (sh0, ["p".data]) "@/tmp/x".data =
        ((create_manifest_channel fsRO sh0 "/tmp/x".data).1,
          ["p".data] ++ [(create_manifest_channel fsRO sh0 "/tmp/x".data).2])) ∧
    processArg fsRO (sh0, ["p".data]) "plain".data =
      (sh0, ["p".data] ++ ["plain".data]) :=
  ⟨⟨by decide,
    (claim_C2_amended fsRO sh0 ["p".data] "@A=B,C".data "A".data "B,C".data
      []).1 (by decide) (by decide) (by decide)⟩,
   ⟨by decide,
    ((claim_C2_amended fsRO sh0 ["p".data] "@/tmp/x".data "A".data "B".data
      "/tmp/x".data).2.1 (by decide) (by decide)).1⟩,
   (claim_C2_amended fsRO sh0 ["p".data] "plain".data "A".data "B".data
     []).2.2 (fun r hr => absurd (List.cons.inj hr).1 (by decide))⟩

/-- C3: on every run trace, the child is awaited before the report reader
is joined, the report reader is joined before the exit-code decision, and
the stdout writer and stderr reader are joined before the supervisor
returns if and only if the exit code is exactly zero. -/
theorem claim_C3 (rc : Int) :
    (idxOf (runTrace rc) REvent.waitChild < idxOf (runTrace rc) REvent.joinRep ∧
      idxOf (runTrace rc) REvent.joinRep <
        idxOf (runTrace rc) REvent.decideExit ∧
      REvent.joinRep ∈ runTrace rc ∧ REvent.decideExit ∈ runTrace rc) ∧
    ((REvent.joinWriter ∈ runTrace rc ∧ REvent.joinErr ∈ runTrace rc) ↔
      rc = 0) := by
  by_cases h0 : rc = 0
  · subst h0
    decide
  · by_cases h1 : rc > 0
    · have ht : runTrace rc =
        [REvent.spawnStdin, REvent.spawnErr, REvent.spawnRep,
         REvent.spawnWriter, REvent.waitChild, REvent.joinRep,
         REvent.decideExit, REvent.waitFinal, REvent.printErrorEv,
         REvent.ret] := by
        rw [runTrace, if_neg h0, if_pos h1]
        simp
      rw [ht]
      refine ⟨by decide, ?_⟩
      constructor
      · intro hmem
        exact absurd hmem.1 (by decide)
      · intro hrc
        exact absurd hrc h0
    · have ht : runTrace rc =
        [REvent.spawnStdin, REvent.spawnErr, REvent.spawnRep,
         REvent.spawnWriter, REvent.waitChild, REvent.joinRep,
         REvent.decideExit, REvent.waitFinal, REvent.ret] := by
        rw [runTrace, if_neg h0, if_neg h1]
        simp
      rw [ht]
      refine ⟨by decide, ?_⟩
      constructor
      · intro hmem
        exact absurd hmem.1 (by decide)
      · intro hrc
        exact absurd hrc h0

/-- C7 as stated is false: a child killed by a signal reports a negative —
hence nonzero — exit code, yet `print_error` runs only for positive codes,
so no dump is produced. -/
theorem claim_C7_counterexample :
    ((-9 : Int) ≠ 0) ∧
    terminalOutput "/tmp/zv".data [⟨"manifest.1".data, true, [65]⟩]
      "rep".data (-9) = [] ∧
    print_error "/tmp/zv".data [⟨"manifest.1".data, true, [65]⟩]
      "rep".data (-9) ≠ [] := by
  decide

/-- C7 amended: whenever the child's exit code is strictly positive the
supervisor dumps every regular scratch-directory file (binary ones by name
only, text ones with a labelled separator and full contents), then the
report buffer, then the exit-code line; for a zero or negative code no dump
is produced. -/
theorem claim_C7_amended (tmpdir : Str) (files : List DumpFile)
    (report : Str) (rc : Int) :
    (rc > 0 → terminalOutput tmpdir files report rc =
      (files.foldl (fun acc f => acc ++ dumpOne tmpdir f) []) ++ report ++
        "ERROR: ZeroVM return code is ".data ++ intChars rc ++ "\n".data) ∧
    (rc ≤ 0 → terminalOutput tmpdir files report rc = []) ∧
    (∀ f : DumpFile, f.isReg = false → dumpOne tmpdir f = []) ∧
    (∀ f : DumpFile, f.isReg = true →
      (is_binary_string (f.content.take 1024) = true →
        dumpOne tmpdir f =
          (tmpdir ++ "/".data ++ f.name) ++ " is a binary file\n".data) ∧
      (is_binary_string (f.content.take 1024) = false →
        dumpOne tmpdir f =
          "----------".data ++ f.name ++ "----------".data ++ "\n".data ++
            bytesToChars f.content ++ "\n".data ++
            "-------------------------".data ++ "\n".data)) := by
  refine ⟨?_, ?_, ?_, ?_⟩
  · intro h
    rw [terminalOutput, if_pos h]
    rfl
  · intro h
    rw [terminalOutput, if_neg (by omega)]
  · intro f hf
    rw [dumpOne, if_neg (by rw [hf]; exact Bool.false_ne_true)]
  · intro f hf
    constructor
    · intro hb
      rw [dumpOne, if_pos hf, if_pos hb]
    · intro hb
      rw [dumpOne, if_pos hf, if_neg (by rw [hb]; exact Bool.false_ne_true)]

/-- Closed witness for `claim_C7_amended`. -/
theorem claim_C7_amended_witness :
    ((3 : Int) > 0) ∧
    terminalOutput "/tmp/zv".data [⟨"nvram.1".data, true, [65, 66]⟩]
      "rep".data 3 =
      (([⟨"nvram.1".data, true, [65, 66]⟩] : List DumpFile).foldl
        (fun acc f => acc ++ dumpOne "/tmp/zv".data f) []) ++ "rep".data ++
        "ERROR: ZeroVM return code is ".data ++ intChars 3 ++ "\n".data :=
  ⟨by decide,
   (claim_C7_amended "/tmp/zv".data [⟨"nvram.1".data, true, [65, 66]⟩]
     "rep".data 3).1 (by decide)⟩

theorem mem_textchars (b : Nat) :
    b ∈ textchars ↔
      (b = 7 ∨ b = 8 ∨ b = 9 ∨ b = 10 ∨ b = 12 ∨ b = 13 ∨ b = 27 ∨
        (32 ≤ b ∧ b ≤ 255)) := by
  simp only [textchars, List.mem_append, List.mem_map, List.mem_range]
  constructor
  · rintro (hm | ⟨i, hi, rfl⟩)
    · simp at hm
      tauto
    · right; right; right; right; right; right; right
      omega
  · rintro (h | h | h | h | h | h | h | h)
    · left; simp [h]
    · left; simp [h]
    · left; simp [h]
    · left; simp [h]
    · left; simp [h]
    · left; simp [h]
    · left; simp [h]
    · right
      exact ⟨b - 32, by omega, by omega⟩

/-- C10: the binary heuristic fires exactly when some byte lies outside the
allow-list `{7,8,9,10,12,13,27} ∪ [0x20,0xFF]`; in particular a NUL byte
makes the string binary, and an all-allow-listed string is text (and such a
regular file is dumped with its full contents). -/
theorem claim_C10 (bs : List Nat) :
    (is_binary_string bs = true ↔
      ∃ b ∈ bs, ¬ (b = 7 ∨ b = 8 ∨ b = 9 ∨ b = 10 ∨ b = 12 ∨ b = 13 ∨
        b = 27 ∨ (32 ≤ b ∧ b ≤ 255))) ∧
    (0 ∈ bs → is_binary_string bs = true) ∧
    ((∀ b ∈ bs, b = 7 ∨ b = 8 ∨ b = 9 ∨ b = 10 ∨ b = 12 ∨ b = 13 ∨
        b = 27 ∨ (32 ≤ b ∧ b ≤ 255)) →
      is_binary_string bs = false) ∧
    (∀ (tmpdir : Str) (f : DumpFile), f.isReg = true → f.content = bs →
      is_binary_string (bs.take 1024) = false →
      dumpOne tmpdir f =
        "----------".data ++ f.name ++ "----------".data ++ "\n".data ++
          bytesToChars bs ++ "\n".data ++
          "-------------------------".data ++ "\n".data) := by
  have hiff : is_binary_string bs = true ↔
      ∃ b ∈ bs, ¬ (b = 7 ∨ b = 8 ∨ b = 9 ∨ b = 10 ∨ b = 12 ∨ b = 13 ∨
        b = 27 ∨ (32 ≤ b ∧ b ≤ 255)) := by
    unfold is_binary_string
    rw [Bool.not_eq_true']
    rw [← Bool.not_eq_true (List.filter _ bs).isEmpty]
    rw [List.isEmpty_iff]
    rw [List.filter_eq_nil_iff]
    constructor
    · intro h
      by_contra hno
      push_neg at hno
      apply h
      intro b hb
      simp only [Bool.not_eq_true, Bool.not_eq_false]
      have := hno b hb
      rw [← mem_textchars] at this
      simp [this]
    · rintro ⟨b, hb, hout⟩ hall
      have := hall b hb
      rw [← mem_textchars] at hout
      simp [hout] at this
  refine ⟨hiff, ?_, ?_, ?_⟩
  · intro h0
    rw [hiff]
    exact ⟨0, h0, by omega⟩
  · intro hall
    by_contra hbin
    rw [Bool.not_eq_false, hiff] at hbin
    obtain ⟨b, hb, hout⟩ := hbin
    exact hout (hall b hb)
  · intro tmpdir f hreg hc hb
    rw [dumpOne, if_pos hreg, hc, if_neg (by rw [hb]; exact Bool.false_ne_true)]

/-- Closed witness for `claim_C10`. -/
theorem claim_C10_witness :
    ((0 : Nat) ∈ [65, 0, 66] ∧ is_binary_string [65, 0, 66] = true) ∧
    ((∀ b ∈ [7, 9, 65, 255], b = 7 ∨ b = 8 ∨ b = 9 ∨ b = 10 ∨ b = 12 ∨
        b = 13 ∨ b = 27 ∨ (32 ≤ b ∧ b ≤ 255)) ∧
      is_binary_string [7, 9, 65, 255] = false) :=
  ⟨⟨by decide, (claim_C10 [65, 0, 66]).2.1 (by decide)⟩,
   ⟨by decide, (claim_C10 [7, 9, 65, 255]).2.2.1 (by decide)⟩⟩

theorem cmc_program (fs : Fs) (sh : ZvShell) (p : Str) :
    (create_manifest_channel fs sh p).1.program = sh.program := by
  simp [create_manifest_channel]

theorem cmc_tmpdir (fs : Fs) (sh : ZvShell) (p : Str) :
    (create_manifest_channel fs sh p).1.tmpdir = sh.tmpdir := by
  simp [create_manifest_channel]

theorem cmc_node_id (fs : Fs) (sh : ZvShell) (p : Str) :
    (create_manifest_channel fs sh p).1.node_id = sh.node_id := by
  simp [create_manifest_channel]

theorem cmc_scratch (fs : Fs) (sh : ZvShell) (p : Str) :
    (create_manifest_channel fs sh p).1.scratch = sh.scratch := by
  simp [create_manifest_channel]

theorem cmc_args (fs : Fs) (sh : ZvShell) (p : Str) :
    (create_manifest_channel fs sh p).1.nvram_args = sh.nvram_args := by
  simp [create_manifest_channel]

/-- C4 as stated is false: for the program path `a/b`, the archive holds an
entry named `b` — the program's basename — yet the code looks up the full
path `a/b`, gets a `KeyError`, and leaves the program unchanged instead of
extracting to the scratch file. -/
theorem claim_C4_counterexample :
    (basename "a/b".data ∈ (fsTarB.tar "img.tar".data).map Prod.fst) ∧
    (addImageStep fsTarB { sh0 with program := "a/b".data }
      "img.tar".data).program = "a/b".data ∧
    ¬ ((addImageStep fsTarB { sh0 with program := "a/b".data }
        "img.tar".data).program =
      "/tmp/zv".data ++ "/boot.".data ++ natChars 1) := by
  decide

/-- C4 amended: the image archive is searched for an entry whose name
equals the current guest program path exactly as stored (not its
basename); on a hit the entry's content is written to the scratch file
`<tmpdir>/boot.<node_id>` which becomes the new program path, and on a
miss the program path is left unchanged with no error raised. -/
theorem claim_C4_amended (fs : Fs) (sh : ZvShell) (img : Str) :
    (∀ content : Str,
      tarLookup (fs.tar (parseImageSpec img).1) sh.program = some content →
      (addImageStep fs sh img).program =
        sh.tmpdir ++ "/boot.".data ++ natChars sh.node_id ∧
      (addImageStep fs sh img).scratch =
        sh.scratch ++
          [(sh.tmpdir ++ "/boot.".data ++ natChars sh.node_id, content)]) ∧
    (tarLookup (fs.tar (parseImageSpec img).1) sh.program = none →
      (addImageStep fs sh img).program = sh.program) := by
  constructor
  · intro content hsome
    unfold addImageStep
    simp only [cmc_program, cmc_tmpdir, cmc_node_id, cmc_scratch, hsome]
    exact ⟨trivial, trivial⟩
  · intro hnone
    unfold addImageStep
    simp only [cmc_program, hnone]

/-- Closed witness for `claim_C4_amended`, exercising hit and miss. -/
theorem claim_C4_amended_witness :
    (tarLookup (fsTarProg.tar (parseImageSpec "img.tar".data).1)
        ({ sh0 with program := "myprog".data } : ZvShell).program =
      some "X".data ∧
      (addImageStep fsTarProg { sh0 with program := "myprog".data }
        "img.tar".data).program =
        "/tmp/zv".data ++ "/boot.".data ++ natChars 1) ∧
    (tarLookup (fsTarB.tar (parseImageSpec "img.tar".data).1)
        ({ sh0 with program := "a/b".data } : ZvShell).program = none ∧
      (addImageStep fsTarB { sh0 with program := "a/b".data }
        "img.tar".data).program = "a/b".data) :=
  ⟨⟨by decide,
    ((claim_C4_amended fsTarProg { sh0 with program := "myprog".data }
      "img.tar".data).1 "X".data (by decide)).1⟩,
   ⟨by decide,
    (claim_C4_amended fsTarB { sh0 with program := "a/b".data }
      "img.tar".data).2 (by decide)⟩⟩

theorem processArg_snd (fs : Fs) (st : ZvShell × List Str) (arg : Str) :
    ∃ t : List Str, (processArg fs st arg).2 = st.2 ++ t := by
  by_cases hsh : ∃ rest, arg = '@' :: rest
  · obtain ⟨rest, rfl⟩ := hsh
    rw [processArg.eq_1]
    cases he : envMatch rest with
    | some kv =>
      obtain ⟨k, v⟩ := kv
      exact ⟨[], by simp⟩
    | none => exact ⟨_, rfl⟩
  · push_neg at hsh
    rw [processArg.eq_2 fs st arg (fun r hr => hsh r hr)]
    exact ⟨[arg], rfl⟩

theorem processArgs_append (fs : Fs) (cmdline : List Str) :
    ∀ st : ZvShell × List Str,
      ∃ t : List Str, (cmdline.foldl (processArg fs) st).2 = st.2 ++ t := by
  induction cmdline with
  | nil => exact fun st => ⟨[], by simp⟩
  | cons a as ih =>
    intro st
    obtain ⟨t1, ht1⟩ := ih (processArg fs st a)
    obtain ⟨t0, ht0⟩ := processArg_snd fs st a
    refine ⟨t0 ++ t1, ?_⟩
    rw [List.foldl_cons, ht1, ht0, List.append_assoc]

theorem addImageStep_args (fs : Fs) (sh : ZvShell) (img : Str) :
    (addImageStep fs sh img).nvram_args = sh.nvram_args := by
  unfold addImageStep
  cases htl : tarLookup (fs.tar (parseImageSpec img).1)
      (create_manifest_channel fs sh (parseImageSpec img).1).1.program with
  | none => simp only [htl, cmc_args]
  | some content => simp only [htl, cmc_args]

theorem add_image_args_args (fs : Fs) (imgs : List Str) :
    ∀ sh : ZvShell, (add_image_args fs sh imgs).nvram_args = sh.nvram_args := by
  induction imgs with
  | nil => exact fun sh => rfl
  | cons i is ih =>
    intro sh
    show (add_image_args fs (addImageStep fs sh i) is).nvram_args = _
    rw [ih, addImageStep_args]

/-- C5 as stated is false: when a declared image carries the guest program,
the program path is replaced by the scratch file `boot.1` after the guest
argv has already been serialized, so argv element 0 stays the basename of
the original path, not of the resolved one. -/
theorem claim_C5_counterexample :
    (add_image_args fsTarProg
      (add_untrusted_args fsTarProg sh0 "myprog".data [])
      ["img.tar".data]).program = "/tmp/zv/boot.1".data ∧
    ¬ ((add_image_args fsTarProg
        (add_untrusted_args fsTarProg sh0 "myprog".data [])
        ["img.tar".data]).nvram_args.head? =
      some (basename (add_image_args fsTarProg
        (add_untrusted_args fsTarProg sh0 "myprog".data [])
        ["img.tar".data]).program)) := by
  decide

/-- C5 amended: after absorbing guest arguments and then images, element 0
of the serialized guest argument list is the basename of the program path
as originally supplied to `add_untrusted_args`, even when image resolution
later replaced the program path. -/
theorem claim_C5_amended (fs : Fs) (sh : ZvShell) (program : Str)
    (cmdline imgs : List Str) :
    (add_image_args fs (add_untrusted_args fs sh program cmdline)
      imgs).nvram_args.head? = some (basename program) := by
  rw [add_image_args_args]
  unfold add_untrusted_args
  obtain ⟨t, ht⟩ := processArgs_append fs cmdline
    ({ sh with program := program }, [basename program])
  simp only []
  rw [ht]
  rfl

theorem splitComma_no_comma (s : Str) (h : ',' ∉ s) : splitComma s = [s] := by
  induction s with
  | nil => rfl
  | cons c cs ih =>
    have hc : c ≠ ',' := fun hh => h (hh ▸ List.mem_cons_self c cs)
    unfold splitComma
    rw [if_neg hc, ih (fun hm => h (List.mem_cons_of_mem c hm))]

/-- C9: an image spec parses as `path[,mountpoint[,access]]` with missing
fields defaulting to mountpoint `/` and access `ro`; in particular the spec
`img.tar,/mnt,rw` yields the mount entry `(/mnt, rw)` for the image's
device name and `img.tar` alone yields `(/, ro)`. -/
theorem claim_C9 :
    (∀ s : Str, ',' ∉ s →
      parseImageSpec s = (s, none, none) ∧
      pyOr (parseImageSpec s).2.1 "/".data ++ " ".data ++
        pyOr (parseImageSpec s).2.2 "ro".data = "/ ro".data) ∧
    ((addImageStep fsRO sh0 "img.tar,/mnt,rw".data).nvram_fstab =
      [(devName 1 "img.tar".data, "/mnt rw".data)]) ∧
    ((addImageStep fsRO sh0 "img.tar".data).nvram_fstab =
      [(devName 1 "img.tar".data, "/ ro".data)]) := by
  refine ⟨?_, by decide, by decide⟩
  intro s hs
  have hp : parseImageSpec s = (s, none, none) := by
    unfold parseImageSpec
    rw [splitComma_no_comma s hs]
    rfl
  exact ⟨hp, by rw [hp]; rfl⟩

/-- Closed witness for `claim_C9`. -/
theorem claim_C9_witness :
    (',' ∉ "img.tar".data) ∧
    (parseImageSpec "img.tar".data = ("img.tar".data, none, none) ∧
      pyOr (parseImageSpec "img.tar".data).2.1 "/".data ++ " ".data ++
        pyOr (parseImageSpec "img.tar".data).2.2 "ro".data = "/ ro".data) :=
  ⟨by decide, (claim_C9).1 "img.tar".data (by decide)⟩

/-- C8: the claim is right and the code is wrong. `ZvShell.__init__` binds
`self.manifest_conf` (and `self.channel_conf`) directly to the module-level
`DEFAULT_MANIFEST` (`DEFAULT_LIMITS`) dictionary and then calls `update` on
it, mutating the shared default in place: after one session overrides
`Memory`, a second session constructed with no overrides no longer starts
from the built-in default. -/
theorem claim_C8_bug :
    dictLookup DEFAULT_MANIFEST "Memory".data = some "4294967296, 0".data ∧
    dictLookup
      ((zvShellInitConf initGlobals
        [("Memory".data, "1, 0".data)] []).1).default_manifest
      "Memory".data = some "1, 0".data ∧
    dictLookup
      ((zvShellInitConf
        (zvShellInitConf initGlobals [("Memory".data, "1, 0".data)] []).1
        [] []).2.1) "Memory".data = some "1, 0".data ∧
    ¬ ((zvShellInitConf initGlobals
        [("Memory".data, "1, 0".data)] []).1).default_manifest =
      DEFAULT_MANIFEST := by
  decide

/-- C6 as stated is false: fstab fields are emitted into the NVRAM blob
without comma escaping, so for the mount point `/a,b` (a value containing a
comma) a compliant comma-splitting reader does not recover the original
value. -/
theorem claim_C6_counterexample :
    (',' ∈ "/a,b".data) ∧
    ¬ ((splitComma ((nvramFstabLine "/dev/1.x".data "/a,b ro".data).getD
        [])).map unescapeComma =
      ["channel=/dev/1.x".data, "mountpoint=/a,b".data, "access=ro".data,
        "removable=no\n".data]) := by
  decide

theorem unescape_safe_cons (c : Char) (cs : Str)
    (h : ¬ (c = '\\' ∧ cs.take 3 = ['x', '2', 'c'])) :
    unescapeComma (c :: cs) = c :: unescapeComma cs := by
  match cs with
  | [] => rfl
  | [b] => rfl
  | [b, d] => rfl
  | b :: d :: e :: rest =>
    show (if c = '\\' ∧ b = 'x' ∧ d = '2' ∧ e = 'c' then
        ',' :: unescapeComma rest
      else c :: unescapeComma (b :: d :: e :: rest)) =
      c :: unescapeComma (b :: d :: e :: rest)
    rw [if_neg]
    rintro ⟨h1, h2, h3, h4⟩
    subst h2
    subst h3
    subst h4
    exact h ⟨h1, rfl⟩

theorem escape_take3 (cs : Str)
    (h : (escapeComma cs).take 3 = ['x', '2', 'c']) :
    cs.take 3 = ['x', '2', 'c'] := by
  match cs with
  | [] => simp [escapeComma] at h
  | [d] =>
    by_cases hd : d = ','
    · subst hd; simp [escapeComma] at h
    · simp [escapeComma, hd] at h
  | [d, e] =>
    by_cases hd : d = ','
    · subst hd; simp [escapeComma] at h
    · by_cases he : e = ','
      · subst he; simp [escapeComma, hd] at h
      · simp [escapeComma, hd, he] at h
  | d :: e :: f :: rest =>
    by_cases hd : d = ','
    · subst hd; simp [escapeComma] at h
    · by_cases he : e = ','
      · subst he; simp [escapeComma, hd] at h
      · by_cases hf : f = ','
        · subst hf; simp [escapeComma, hd, he] at h
        · simp only [escapeComma, if_neg hd, if_neg he, if_neg hf,
            List.take_cons] at h ⊢
          simp at h
          simp [h]

theorem unescape_escape (v : Str) (h : hasEscSeq v = false) :
    unescapeComma (escapeComma v) = v := by
  induction v with
  | nil => rfl
  | cons c cs ih =>
    have hor := Bool.or_eq_false_iff.mp (by rw [← hasEscSeq]; exact h)
    have htail : hasEscSeq cs = false := hor.2
    have hhead := hor.1
    by_cases hc : c = ','
    · subst hc
      rw [show escapeComma (',' :: cs) =
          '\\' :: 'x' :: '2' :: 'c' :: escapeComma cs from by
        rw [escapeComma, if_pos rfl]]
      rw [show unescapeComma ('\\' :: 'x' :: '2' :: 'c' :: escapeComma cs) =
          ',' :: unescapeComma (escapeComma cs) from by
        rw [unescapeComma, if_pos ⟨rfl, rfl, rfl, rfl⟩]]
      rw [ih htail]
    · rw [show escapeComma (c :: cs) = c :: escapeComma cs from by
        rw [escapeComma, if_neg hc]]
      rw [unescape_safe_cons c (escapeComma cs) ?hsafe, ih htail]
      case hsafe =>
        rintro ⟨rfl, htk⟩
        have h3 := escape_take3 cs htk
        rw [Bool.and_eq_false_iff] at hhead
        rcases hhead with h1 | h2
        · simp at h1
        · rw [h3] at h2
          simp at h2

/-- C6 amended: guest-argument and environment values have each comma
escaped to the reserved sequence `\x2c` before emission into the NVRAM
blob, and a compliant reader mapping the sequence back to a comma recovers
exactly the original value provided the original contains no literal
`\x2c`; fstab fields, however, are emitted without escaping. -/
theorem claim_C6_amended (k v : Str) (hno : hasEscSeq v = false) :
    nvramEnvLine k v =
      "name=".data ++ k ++ ",value=".data ++ escapeComma v ++ "\n".data ∧
    nvramArgsLine [v] = "args = ".data ++ escapeComma v ++ "\n".data ∧
    unescapeComma (escapeComma v) = v ∧
    (∀ channel mp access : Str,
      splitWS (mp ++ " ".data ++ access) = [mp, access] →
      nvramFstabLine channel (mp ++ " ".data ++ access) =
        some ("channel=".data ++ channel ++ ",mountpoint=".data ++ mp ++
          ",access=".data ++ access ++ ",removable=no\n".data)) := by
  refine ⟨rfl, rfl, unescape_escape v hno, ?_⟩
  intro channel mp access hsplit
  unfold nvramFstabLine
  rw [hsplit]

/-- Closed witness for `claim_C6_amended`. -/
theorem claim_C6_amended_witness :
    hasEscSeq "a,b".data = false ∧
    (nvramEnvLine "K".data "a,b".data =
      "name=".data ++ "K".data ++ ",value=".data ++
        escapeComma "a,b".data ++ "\n".data ∧
      unescapeComma (escapeComma "a,b".data) = "a,b".data) :=
  ⟨by decide,
   ⟨(claim_C6_amended "K".data "a,b".data (by decide)).1,
    (claim_C6_amended "K".data "a,b".data (by decide)).2.2.1⟩⟩

end Zvsh
